import Mathlib

/-!
Verification of the teledoom real-time session scheduler
(`src/doom/teledoom.py`) against its specification.

The Python program is shallowly embedded: each relevant method is
translated into an executable Lean definition over explicit state, with
Python exceptions modelled by `Option` (`none` = the call raises), Python
ints by `Int`, and the unbounded asyncio queue by a `List` of events.
-/

/-! ## Session registry (`Asterisk`, lines 155-204) -/

/-- One caller occupying or waiting for the control slot: the Python pair
`(caller, channel.id)` built in `Asterisk.on_start` (line 182/186). -/
abbrev Session := String × String

/-- The state owned by `Asterisk`: `self.playing` (line 159, `None` or a
`(caller, channel_id)` pair) and `self.waiting` (line 160, a list). -/
structure RegState where
  playing : Option Session
  waiting : List Session
deriving DecidableEq, Repr

/-- `Asterisk.__init__` (lines 159-160): no active caller, empty waiting list. -/
def initRegState : RegState := ⟨none, []⟩

/-- Admission / departure outcome reported to the caller: which prompt is
played and which queue event is pushed by `on_start` / `on_end`. -/
inductive Outcome where
  | admitNow
  | admitQueue
  | promote (s : Session)
  | nowIdle
  | noChange
deriving DecidableEq, Repr

/-- The admission branch of `Asterisk.on_start` (lines 181-187):
if `self.playing` is falsy the arriving caller becomes active and is told
"you are entering the game" (`admitNow`); otherwise the caller is appended
to `self.waiting` and told "you are being placed in a queue" (`admitQueue`). -/
def on_start (s : RegState) (caller chanId : String) : RegState × Outcome :=
  match s.playing with
  | none => (⟨some (caller, chanId), s.waiting⟩, Outcome.admitNow)
  | some p => (⟨some p, s.waiting ++ [(caller, chanId)]⟩, Outcome.admitQueue)

/-- `Asterisk.on_end` (lines 193-204). Line 194 evaluates
`self.playing[1]` before any guard, so when `self.playing` is `None` the
handler raises `TypeError` — modelled as `none`. Otherwise: if the ending
channel is the active one, promote the head of `self.waiting` (lines
195-199) or clear the slot (lines 200-202); else filter the ending channel
out of `self.waiting` (line 204). -/
def on_end (s : RegState) (chanId : String) : Option (RegState × Outcome) :=
  match s.playing with
  | none => none
  | some p =>
    if chanId = p.2 then
      match s.waiting with
      | w :: rest => some (⟨some w, rest⟩, Outcome.promote w)
      | [] => some (⟨none, []⟩, Outcome.nowIdle)
    else
      some (⟨some p, s.waiting.filter (fun x => chanId != x.2)⟩, Outcome.noChange)

/-- A caller-lifecycle operation applied to the registry. -/
inductive RegEvent where
  | arrive (caller chanId : String)
  | depart (chanId : String)
deriving DecidableEq, Repr

/-- One registry operation; departures can raise (see `on_end`). -/
def regStep (s : RegState) : RegEvent → Option RegState
  | RegEvent.arrive c ch => some (on_start s c ch).1
  | RegEvent.depart ch => (on_end s ch).map (fun x => x.1)

/-- Run a sequence of caller-arrival and caller-departure operations from
the initial state; `none` when some departure raised. -/
def runReg (evts : List RegEvent) : Option RegState :=
  List.foldlM regStep initRegState evts

/-- The channel identifiers of the arrival operations, in arrival order. -/
def arrivalChans : List RegEvent → List String
  | [] => []
  | RegEvent.arrive _ ch :: es => ch :: arrivalChans es
  | RegEvent.depart _ :: es => arrivalChans es

/-- All channel identifiers currently stored in the registry: the active
one (if any) followed by the waiting ones in queue order. -/
def stateChans (s : RegState) : List String :=
  (match s.playing with
   | some p => [p.2]
   | none => []) ++ s.waiting.map (fun x => x.2)

/-- Registry invariant relative to the list `arrived` of channels that have
arrived so far: stored channels are pairwise distinct (so the active slot
and the waiting list never share a channel), the waiting list is an
order-preserving subsequence of the arrival order, and every stored channel
did arrive. -/
def RegInv (arrived : List String) (s : RegState) : Prop :=
  (stateChans s).Nodup
  ∧ List.Sublist (s.waiting.map (fun x => x.2)) arrived
  ∧ ∀ c ∈ stateChans s, c ∈ arrived

/-! ## Input debouncing (`ButtonManager`, lines 206-227) -/

/-- The twelve `vzd.Button` values used by `ButtonManager.BUTTON_MAP`
(lines 207-212). -/
inductive Button where
  | moveLeft
  | moveForward
  | moveRight
  | turnLeft
  | attack
  | turnRight
  | crouch
  | moveBackward
  | jump
  | selectPrevWeapon
  | use
  | selectNextWeapon
deriving DecidableEq, Repr

/-- `ButtonManager.BUTTON_MAP` (lines 207-212), in insertion order. -/
def BUTTON_MAP : List (Char × Button) :=
  [('1', Button.moveLeft), ('2', Button.moveForward), ('3', Button.moveRight),
   ('4', Button.turnLeft), ('5', Button.attack), ('6', Button.turnRight),
   ('7', Button.crouch), ('8', Button.moveBackward), ('9', Button.jump),
   ('*', Button.selectPrevWeapon), ('0', Button.use),
   ('#', Button.selectNextWeapon)]

/-- `BUTTON_LIST = list(BUTTON_MAP.values())` (line 213). -/
def BUTTON_LIST : List Button := BUTTON_MAP.map (fun p => p.2)

/-- The membership test and lookup `button in BUTTON_MAP` /
`BUTTON_MAP[button]` (lines 219-220). -/
def lookupButton (k : Char) : Option Button :=
  (BUTTON_MAP.find? (fun p => p.1 == k)).map (fun p => p.2)

/-- `ButtonManager.BUTTON_LIST.index(button)` (line 221). -/
def buttonIndex (b : Button) : Nat := BUTTON_LIST.indexOf b

/-- `ButtonManager.__init__` (line 216): `[0 for _ in BUTTON_LIST]`. -/
def freshButtons : List Int := BUTTON_LIST.map (fun _ => 0)

/-- `ButtonManager.button_pressed` (lines 218-223): a mapped key sets that
button's counter slot to `timeout` (assignment, lines 220-221); an unmapped
key leaves the counters alone and logs the warning of line 223 (returned
as the `Bool`). -/
def button_pressed (l : List Int) (k : Char) (timeout : Int) :
    List Int × Bool :=
  match lookupButton k with
  | some b => (l.set (buttonIndex b) timeout, false)
  | none => (l, true)

/-- The counter decay performed by one `get_action` call (line 226):
`[max(x - 1, 0) for x in self.button_timeout]`. -/
def decayStep (l : List Int) : List Int := l.map (fun x => max (x - 1) 0)

/-- `ButtonManager.get_action` (lines 225-227): decrement every counter,
floored at zero (line 226), then return the updated counters together with
the boolean activity vector `[x > 0 for x in self.button_timeout]`
(line 227). -/
def get_action (l : List Int) : List Int × List Bool :=
  (decayStep l, (decayStep l).map (fun x => decide (x > 0)))

/-! ## Events and the scheduler (`Event`, `Doom.start`, lines 125-129 and
246-312) -/

/-- The `Event` enumeration (lines 125-129) together with the payload
pushed alongside it onto the queue: `GOT_CONNECTION` (line 168),
`NEW_PLAYER` with the caller number (lines 184, 199), `NO_PLAYER`
(line 202), `BUTTON_PRESSED` with the DTMF digit (line 191). -/
inductive QEvent where
  | gotConnection
  | newPlayer (caller : String)
  | noPlayer
  | buttonPressed (digit : Char)
deriving DecidableEq, Repr

/-- The outer-loop prelude of `Doom.start` (lines 253-260): the inner
`while True` loop keeps calling `advance_action` and polling the queue with
a one-frame timeout until a `get` succeeds (line 256) and breaks; line 260
then performs a second, unconditional blocking `get`, overwriting `event`.
Only the line-260 event reaches the dispatch at lines 261-269. Returns the
dispatched event and the remaining queue; `none` when fewer than two events
ever arrive (the corresponding `get` blocks forever). -/
def startupFetch : List QEvent → Option (QEvent × List QEvent)
  | _ :: e2 :: rest => some (e2, rest)
  | _ => none

/-- The events the same prelude removes from the queue: one at line 256 and
one at line 260. -/
def startupConsumed (q : List QEvent) : List QEvent := q.take 2

/-- `DOOM_FPS` at its default value `35` (line 23). -/
def DOOM_FPS : Int := 35

/-- The absolute deadline of one streaming-loop tick:
`start + frames / DOOM_FPS` from the timeout expression of line 292
(`start + frames / DOOM_FPS - self.loop.time()`), where `start` was
sampled once at line 272 and `frames` counts the frames sent so far
(line 287). -/
def tickDeadline (start fps : ℚ) (frames : ℕ) : ℚ := start + frames / fps

/-- The deadlines used by successive iterations of the streaming loop
(lines 276-312): every tick increments `frames` (line 287), drains events
until its deadline (line 292) and proceeds at
`max (now + work) deadline` — immediately, without sleeping, when its work
already overran the deadline, since the line-292 timeout is then expired.
`works` lists the processing time of each tick. -/
def runDeadlines (start fps : ℚ) : ℕ → ℚ → List ℚ → List ℚ
  | _, _, [] => []
  | frames, now, w :: ws =>
    tickDeadline start fps (frames + 1) ::
      runDeadlines start fps (frames + 1)
        (max (now + w) (tickDeadline start fps (frames + 1))) ws

/-- The streaming loop (lines 276-312) restricted to the variables deciding
its continuation, for a run during which no event arrives (every line-292
wait times out): while `not idle or idle_frames_left > 0` (line 276) the
loop publishes one frame (line 285), increments `frames` (line 287) and,
when idle, decrements `idle_frames_left` (lines 288-289). Returns the
number of frames published before the loop condition fails; `none` when the
fuel is exhausted with the loop still running. -/
def idleRun : ℕ → Bool → Int → Option ℕ
  | 0, _, _ => none
  | fuel + 1, idle, left =>
    if ¬idle ∨ left > 0 then
      (idleRun fuel idle (if idle then left - 1 else left)).map (fun n => n + 1)
    else
      some 0

/-- The whole `with self.twitch as stream:` statement (line 271) around the
streaming loop, under an empty event queue: when the inner loop terminates,
the `with` block exits and `Twitch.__exit__` (lines 121-123) closes the
ffmpeg stdin, i.e. the publish stream is closed. Returns
(frames published, stream closed on exit). -/
def withTwitch (fuel : ℕ) (idle : Bool) (left : Int) : Option (ℕ × Bool) :=
  (idleRun fuel idle left).map (fun n => (n, true))

/-- The per-frame state touched by the in-loop event dispatch of
`Doom.start`: the overlay caller (`Overlay.set_caller`), a counter of
`self.game.new_episode()` calls (each marks the start of a fresh simulation
episode), the `button_manager` counters, and the idle bookkeeping. -/
structure TickState where
  overlayCaller : Option String
  episodes : Nat
  buttons : List Int
  idle : Bool
  idleFramesLeft : Int
deriving DecidableEq, Repr

/-- The per-frame event dispatch of the streaming loop (lines 294-309):
`GOT_CONNECTION` resets the idle countdown only when idle (lines 295-296);
`NEW_PLAYER` sets the overlay caller, starts a new episode, replaces
`button_manager` with a fresh `ButtonManager()` and leaves idle mode
(lines 297-301); `NO_PLAYER` clears the overlay caller, starts a new
episode, replaces `button_manager` and enters idle with a full countdown
(lines 302-307); `BUTTON_PRESSED` forwards the digit to `button_pressed`
with hold `DOOM_FPS // 2` (lines 308-309). -/
def dispatchTick (s : TickState) : QEvent → TickState
  | QEvent.gotConnection =>
    if s.idle then { s with idleFramesLeft := DOOM_FPS * 15 } else s
  | QEvent.newPlayer c =>
    { s with
        overlayCaller := some c
        episodes := s.episodes + 1
        buttons := freshButtons
        idle := false }
  | QEvent.noPlayer =>
    { s with
        overlayCaller := none
        episodes := s.episodes + 1
        buttons := freshButtons
        idle := true
        idleFramesLeft := DOOM_FPS * 15 }
  | QEvent.buttonPressed d =>
    { s with buttons := (button_pressed s.buttons d (Int.fdiv DOOM_FPS 2)).1 }

/-! ## Registry lemmas and claims C1, C2, C7 -/

theorem regInv_init : RegInv [] initRegState := by
  refine ⟨?_, ?_, ?_⟩ <;> simp [stateChans, initRegState]

theorem regInv_arrive (arr : List String) (s : RegState) (c ch : String)
    (hinv : RegInv arr s) (hfr : ch ∉ arr) :
    RegInv (arr ++ [ch]) (on_start s c ch).1 := by
  obtain ⟨play, wait⟩ := s
  obtain ⟨hnodup, hsub, hmem⟩ := hinv
  cases play with
  | none =>
    simp only [stateChans, List.nil_append] at hnodup hmem
    refine ⟨?_, ?_, ?_⟩
    · simp only [on_start, stateChans, List.singleton_append, List.nodup_cons]
      exact ⟨fun hc => hfr (hmem ch hc), hnodup⟩
    · exact hsub.trans (List.sublist_append_left arr [ch])
    · intro x hx
      simp only [on_start, stateChans, List.singleton_append, List.mem_cons] at hx
      rcases hx with hx | hx
      · simp [hx]
      · exact List.mem_append_left _ (hmem x hx)
  | some p =>
    simp only [stateChans, List.singleton_append] at hnodup hmem
    have hchn : ch ∉ p.2 :: wait.map (fun x => x.2) := by
      intro hc
      exact hfr (hmem ch hc)
    refine ⟨?_, ?_, ?_⟩
    · simp only [on_start, stateChans, List.singleton_append, List.map_append,
        List.map_cons, List.map_nil]
      have : (p.2 :: wait.map (fun x => x.2)) ++ [ch] =
          p.2 :: (wait.map (fun x => x.2) ++ [ch]) := by simp
      rw [← this]
      refine List.nodup_append.mpr ⟨hnodup, List.nodup_singleton ch, ?_⟩
      intro x hx hx2
      simp only [List.mem_singleton] at hx2
      exact hchn (hx2 ▸ hx)
    · simp only [on_start, List.map_append, List.map_cons, List.map_nil]
      exact hsub.append (List.Sublist.refl [ch])
    · intro x hx
      simp only [on_start, stateChans, List.singleton_append, List.map_append,
        List.map_cons, List.map_nil, List.mem_cons, List.mem_append,
        List.mem_singleton, List.not_mem_nil, or_false] at hx
      rcases hx with hx | hx | hx
      · exact List.mem_append_left _ (hmem x (by simp [hx]))
      · exact List.mem_append_left _ (hmem x (by simp [hx]))
      · simp [hx]

theorem regInv_depart (arr : List String) (s t : RegState) (ch : String)
    (o : Outcome) (hinv : RegInv arr s) (hend : on_end s ch = some (t, o)) :
    RegInv arr t := by
  obtain ⟨play, wait⟩ := s
  obtain ⟨hnodup, hsub, hmem⟩ := hinv
  cases play with
  | none => simp [on_end] at hend
  | some p =>
    simp only [stateChans, List.singleton_append] at hnodup hmem
    simp only [List.map] at hsub
    by_cases hch : ch = p.2
    · subst hch
      cases wait with
      | nil =>
        simp only [on_end, if_pos rfl, Option.some.injEq, Prod.mk.injEq] at hend
        obtain ⟨rfl, rfl⟩ := hend
        refine ⟨?_, ?_, ?_⟩ <;> simp [stateChans]
      | cons w rest =>
        simp only [on_end, if_pos rfl, Option.some.injEq, Prod.mk.injEq] at hend
        obtain ⟨rfl, rfl⟩ := hend
        refine ⟨?_, ?_, ?_⟩
        · simp only [stateChans, List.singleton_append, List.map_cons]
          simp only [List.map_cons] at hnodup
          exact hnodup.of_cons
        · simp only [List.map_cons] at hsub ⊢
          exact (List.sublist_cons_self _ _).trans hsub
        · intro x hx
          refine hmem x ?_
          simp only [stateChans, List.singleton_append, List.map_cons] at hx ⊢
          exact List.mem_cons_of_mem _ hx
    · simp only [on_end, if_neg hch, Option.some.injEq, Prod.mk.injEq] at hend
      obtain ⟨rfl, rfl⟩ := hend
      have hfs : List.Sublist ((wait.filter (fun x => ch != x.2)).map (fun x => x.2))
          (wait.map (fun x => x.2)) :=
        (wait.filter_sublist).map (fun x => x.2)
      refine ⟨?_, ?_, ?_⟩
      · simp only [stateChans, List.singleton_append]
        exact ((hfs.cons₂ p.2).nodup hnodup)
      · exact hfs.trans hsub
      · intro x hx
        simp only [stateChans, List.singleton_append, List.mem_cons] at hx
        rcases hx with hx | hx
        · exact hmem x (by simp [hx])
        · exact hmem x (List.mem_cons_of_mem _ (hfs.subset hx))

theorem foldlM_reg_inv (evts : List RegEvent) :
    ∀ (arr : List String) (s t : RegState),
    RegInv arr s →
    (arrivalChans evts).Nodup →
    (∀ c ∈ arrivalChans evts, c ∉ arr) →
    List.foldlM regStep s evts = some t →
    RegInv (arr ++ arrivalChans evts) t := by
  induction evts with
  | nil =>
    intro arr s t hinv _ _ hrun
    simp only [List.foldlM_nil, Option.pure_def, Option.some.injEq] at hrun
    subst hrun
    simpa [arrivalChans] using hinv
  | cons e es ih =>
    intro arr s t hinv hnd hfresh hrun
    rw [List.foldlM_cons] at hrun
    cases e with
    | arrive c ch =>
      simp only [regStep, Option.bind_eq_bind, Option.some_bind] at hrun
      have hfr : ch ∉ arr := hfresh ch (by simp [arrivalChans])
      have hnd2 : (arrivalChans es).Nodup := by
        simpa [arrivalChans, List.nodup_cons] using hnd.of_cons
      have hchn : ch ∉ arrivalChans es := by
        simp only [arrivalChans, List.nodup_cons] at hnd
        exact hnd.1
      have hfresh2 : ∀ c2 ∈ arrivalChans es, c2 ∉ arr ++ [ch] := by
        intro c2 hc2
        simp only [List.mem_append, List.mem_singleton]
        rintro (h1 | h1)
        · exact hfresh c2 (by simp [arrivalChans, hc2]) h1
        · exact hchn (h1 ▸ hc2)
      have hmain := ih (arr ++ [ch]) _ t (regInv_arrive arr s c ch hinv hfr)
        hnd2 hfresh2 hrun
      simpa [arrivalChans, List.append_assoc] using hmain
    | depart ch =>
      simp only [regStep, Option.map_eq_map, Option.bind_eq_bind] at hrun
      cases hend : on_end s ch with
      | none => rw [hend] at hrun; simp at hrun
      | some r =>
        rw [hend] at hrun
        simp only [Option.map_some', Option.some_bind] at hrun
        have hinv2 : RegInv arr r.1 := regInv_depart arr s r.1 ch r.2 hinv
          (by rw [hend])
        have hmain := ih arr r.1 t hinv2 (by simpa [arrivalChans] using hnd)
          (by simpa [arrivalChans] using hfresh) hrun
        simpa [arrivalChans] using hmain

/-- C1. For every sequence of caller-arrival (`Asterisk.on_start`, lines
181-187) and caller-departure (`Asterisk.on_end`, lines 193-204) operations
with pairwise-distinct arriving channel identifiers (the spec's
`channel_identifier` uniquely identifies a telephony channel), every state
the registry reaches satisfies: at most one session is active, the active
slot's channel never occurs in the waiting list, the waiting list is an
order-preserving subsequence of the arrival order (FIFO), and promotion
always takes the head of the waiting list. -/
theorem c1_registry_invariants (evts : List RegEvent) (s : RegState)
    (hnd : (arrivalChans evts).Nodup) (hrun : runReg evts = some s) :
    s.playing.toList.length ≤ 1
    ∧ (∀ p, s.playing = some p → p.2 ∉ s.waiting.map (fun x => x.2))
    ∧ List.Sublist (s.waiting.map (fun x => x.2)) (arrivalChans evts)
    ∧ (∀ p w rest, on_end ⟨some p, w :: rest⟩ p.2 =
        some (⟨some w, rest⟩, Outcome.promote w)) := by
  have hinv : RegInv (arrivalChans evts) s := by
    have := foldlM_reg_inv evts [] initRegState s regInv_init hnd
      (by simp) hrun
    simpa using this
  obtain ⟨hnodup, hsub, _⟩ := hinv
  refine ⟨?_, ?_, hsub, ?_⟩
  · cases h : s.playing <;> simp
  · intro p hp hmem
    rw [stateChans, hp] at hnodup
    simp only [List.singleton_append, List.nodup_cons] at hnodup
    exact hnodup.1 hmem
  · intro p w rest
    simp [on_end]

/-- Witness for C1 on the run arrive A, arrive B, arrive C, depart A:
the reached state has B active and C waiting. -/
theorem c1_registry_invariants_witness :
    (some (("B", "chB") : Session)).toList.length ≤ 1
    ∧ ("chB" ∉ [("C", "chC")].map (fun x : Session => x.2))
    ∧ List.Sublist ([("C", "chC")].map (fun x : Session => x.2))
        (arrivalChans [RegEvent.arrive "A" "chA", RegEvent.arrive "B" "chB",
          RegEvent.arrive "C" "chC", RegEvent.depart "chA"])
    ∧ on_end ⟨some ("B", "chB"), [("C", "chC")]⟩ "chB" =
        some (⟨some ("C", "chC"), []⟩, Outcome.promote ("C", "chC")) := by
  have h := c1_registry_invariants
    [RegEvent.arrive "A" "chA", RegEvent.arrive "B" "chB",
      RegEvent.arrive "C" "chC", RegEvent.depart "chA"]
    ⟨some ("B", "chB"), [("C", "chC")]⟩ (by decide) (by decide)
  exact ⟨h.1, h.2.1 ("B", "chB") rfl, h.2.2.1,
    h.2.2.2 ("B", "chB") ("C", "chC") []⟩

/-- C2. Arrival with no active session admits immediately (`admitNow`) and
makes the caller active; arrival during an active session appends the
caller to the tail of the waiting list (`admitQueue`); exactly one outcome
is reported per call. In the concrete scenario, callers A, B, C arrive in
order with nobody active: A is admitted at once, B and C are queued in
that order, and on A's departure B is promoted while C stays queued. -/
theorem c2_admission :
    (∀ (s : RegState) (c ch : String), s.playing = none →
      on_start s c ch = (⟨some (c, ch), s.waiting⟩, Outcome.admitNow))
    ∧ (∀ (s : RegState) (p : Session) (c ch : String), s.playing = some p →
      on_start s c ch = (⟨some p, s.waiting ++ [(c, ch)]⟩, Outcome.admitQueue))
    ∧ on_start initRegState "A" "chA" =
        (⟨some ("A", "chA"), []⟩, Outcome.admitNow)
    ∧ on_start ⟨some ("A", "chA"), []⟩ "B" "chB" =
        (⟨some ("A", "chA"), [("B", "chB")]⟩, Outcome.admitQueue)
    ∧ on_start ⟨some ("A", "chA"), [("B", "chB")]⟩ "C" "chC" =
        (⟨some ("A", "chA"), [("B", "chB"), ("C", "chC")]⟩, Outcome.admitQueue)
    ∧ on_end ⟨some ("A", "chA"), [("B", "chB"), ("C", "chC")]⟩ "chA" =
        some (⟨some ("B", "chB"), [("C", "chC")]⟩,
          Outcome.promote ("B", "chB")) := by
  refine ⟨?_, ?_, by decide, by decide, by decide, by decide⟩
  · intro s c ch hp
    obtain ⟨play, wait⟩ := s
    cases play with
    | none => rfl
    | some p => cases hp
  · intro s p c ch hp
    obtain ⟨play, wait⟩ := s
    cases play with
    | none => cases hp
    | some q =>
      cases hp
      rfl

/-- Witness for C2: the two general admission clauses at concrete states. -/
theorem c2_admission_witness :
    on_start ⟨none, []⟩ "X" "chX" = (⟨some ("X", "chX"), []⟩, Outcome.admitNow)
    ∧ on_start ⟨some ("A", "chA"), []⟩ "Y" "chY" =
        (⟨some ("A", "chA"), [("Y", "chY")]⟩, Outcome.admitQueue) :=
  ⟨c2_admission.1 ⟨none, []⟩ "X" "chX" rfl,
   c2_admission.2.1 ⟨some ("A", "chA"), []⟩ ("A", "chA") "Y" "chY" rfl⟩

/-- C7 evaluated at its failing input: a departure while `self.playing` is
`None` raises `TypeError` at line 194 (`self.playing[1]`), modelled by
`on_end` returning `none`, instead of removing any waiting-list match and
reporting "no state change" as the claim requires. Note the contrast with
`Asterisk.on_dtmf` (line 190), which does guard `self.playing` first. -/
theorem c7_depart_inactive_raises :
    on_end ⟨none, [("B", "chB")]⟩ "chZ" = none
    ∧ on_end ⟨none, []⟩ "chA" = none := ⟨rfl, rfl⟩

/-! ## ButtonManager lemmas and claims C8, C9, C4 -/

theorem buttonIndex_lt (b : Button) : buttonIndex b < 12 := by
  cases b <;> decide

/-- C8. `button_pressed` on a mapped key assigns (never accumulates) the
hold duration into that button's counter slot (lines 220-221): the counter
reads exactly `h` afterwards, and an immediate second press of the same key
leaves the state exactly as after the first press — the counter is `h`,
never `2h`, and the hold window is not extended. -/
theorem c8_press_overwrites (m : List Int) (k : Char) (b : Button) (h : Int)
    (hk : lookupButton k = some b) (hm : m.length = 12) :
    (button_pressed m k h).1 = m.set (buttonIndex b) h
    ∧ ((button_pressed m k h).1)[buttonIndex b]? = some h
    ∧ (button_pressed (button_pressed m k h).1 k h).1 = (button_pressed m k h).1
    ∧ ((button_pressed (button_pressed m k h).1 k h).1)[buttonIndex b]? =
        some h := by
  have hlt : buttonIndex b < m.length := hm ▸ buttonIndex_lt b
  have h1 : (button_pressed m k h).1 = m.set (buttonIndex b) h := by
    simp [button_pressed, hk]
  have h2 : (m.set (buttonIndex b) h)[buttonIndex b]? = some h :=
    List.getElem?_set_eq_of_lt h hlt
  have h3 : (button_pressed (m.set (buttonIndex b) h) k h).1 =
      m.set (buttonIndex b) h := by
    simp [button_pressed, hk, List.set_set]
  refine ⟨h1, by rw [h1]; exact h2, by rw [h1]; exact h3, ?_⟩
  rw [h1, h3]
  exact h2

/-- Witness for C8 at the fresh counters, key `'5'` (ATTACK), hold 17. -/
theorem c8_press_overwrites_witness :
    (button_pressed freshButtons '5' 17).1 =
      freshButtons.set (buttonIndex Button.attack) 17
    ∧ ((button_pressed freshButtons '5' 17).1)[buttonIndex Button.attack]? =
        some 17
    ∧ (button_pressed (button_pressed freshButtons '5' 17).1 '5' 17).1 =
        (button_pressed freshButtons '5' 17).1
    ∧ ((button_pressed (button_pressed freshButtons '5' 17).1 '5'
        17).1)[buttonIndex Button.attack]? = some 17 :=
  c8_press_overwrites freshButtons '5' Button.attack 17 rfl (by decide)

/-- C9. Pressing a key that is absent from `BUTTON_MAP` leaves every
counter unchanged and only logs the warning of line 223 (the returned
`true`); the `else` branch raises nothing and does not terminate the
program. -/
theorem c9_unmapped_key_noop (m : List Int) (k : Char) (h : Int)
    (hk : lookupButton k = none) :
    button_pressed m k h = (m, true) := by
  simp [button_pressed, hk]

/-- Witness for C9: the letter `'A'` is not a mapped DTMF key. -/
theorem c9_unmapped_key_noop_witness :
    button_pressed freshButtons 'A' 17 = (freshButtons, true) :=
  c9_unmapped_key_noop freshButtons 'A' 17 rfl

theorem max_sub_one (y : Int) : max (max y 0 - 1) 0 = max (y - 1) 0 := by
  rcases le_total y 0 with hy | hy
  · rw [max_eq_right hy, max_eq_right (by omega : y - 1 ≤ 0)]
    simp
  · rw [max_eq_left hy]

theorem decay_fun_iterate (j : ℕ) (hj : 1 ≤ j) (x : Int) :
    (fun x : Int => max (x - 1) 0)^[j] x = max (x - j) 0 := by
  induction j with
  | zero => omega
  | succ j ih =>
    rcases Nat.eq_or_lt_of_le hj with hj1 | hj1
    · rw [← hj1]
      simp
    · have hj2 : 1 ≤ j := by omega
      rw [Function.iterate_succ_apply', ih hj2]
      rw [max_sub_one (x - j)]
      congr 1
      push_cast
      ring

theorem decayStep_iterate_getElem (j : ℕ) (l : List Int) (i : ℕ) :
    (decayStep^[j] l)[i]? =
      (l[i]?).map ((fun x : Int => max (x - 1) 0)^[j]) := by
  induction j with
  | zero => simp
  | succ j ih =>
    rw [Function.iterate_succ_apply', decayStep, List.getElem?_map, ih,
      Option.map_map, Function.iterate_succ']

/-- C4 refuted at its concrete instance: with hold `DOOM_FPS // 2 = 17`
(line 309), after a press of key `'5'` (ATTACK) the ATTACK entry of the
sampled control vector reads true only for the next 16 samples — the 17th
sample already reads false, where the claim requires samples 1..17 to read
true and the first false to occur at sample 18. The cause: `get_action`
decrements every counter (line 226) before testing `x > 0` (line 227). -/
theorem c4_counterexample :
    Int.fdiv DOOM_FPS 2 = 17
    ∧ (((decayStep^[(16 : ℕ)]) (button_pressed freshButtons '5' 17).1).map
        (fun x => decide (x > 0)))[buttonIndex Button.attack]? = some true
    ∧ (((decayStep^[(17 : ℕ)]) (button_pressed freshButtons '5' 17).1).map
        (fun x => decide (x > 0)))[buttonIndex Button.attack]? = some false :=
  ⟨by decide, by decide, by decide⟩

/-- C4 as amended. After `button_pressed` stores hold `h` for a mapped key,
the `j`-th `get_action` call (`j ≥ 1`) leaves that button's counter at
`max (h - j) 0` and samples it as active exactly when `j < h`: the button
reads active for exactly the next `h - 1` samples and false from sample `h`
onward (the code decrements before sampling); the counter is non-increasing
between presses and reaches exactly zero after `h` decays. -/
theorem c4_hold_decay (m : List Int) (k : Char) (b : Button) (h : Int)
    (j : ℕ) (hk : lookupButton k = some b) (hm : m.length = 12)
    (hh : 1 ≤ h) (hj : 1 ≤ j) :
    (∀ l, get_action l =
      (decayStep l, (decayStep l).map (fun x => decide (x > 0))))
    ∧ ((decayStep^[j]) (button_pressed m k h).1)[buttonIndex b]? =
        some (max (h - j) 0)
    ∧ (((decayStep^[j]) (button_pressed m k h).1).map
        (fun x => decide (x > 0)))[buttonIndex b]? =
        some (decide ((j : Int) < h))
    ∧ max (h - ((j : Int) + 1)) 0 ≤ max (h - (j : Int)) 0
    ∧ ((decayStep^[h.toNat]) (button_pressed m k h).1)[buttonIndex b]? =
        some 0 := by
  have hlt : buttonIndex b < m.length := hm ▸ buttonIndex_lt b
  have hpress : (button_pressed m k h).1 = m.set (buttonIndex b) h := by
    simp [button_pressed, hk]
  have hget : ((button_pressed m k h).1)[buttonIndex b]? = some h := by
    rw [hpress]
    exact List.getElem?_set_eq_of_lt h hlt
  have key : ∀ (j2 : ℕ), 1 ≤ j2 →
      ((decayStep^[j2]) (button_pressed m k h).1)[buttonIndex b]? =
        some (max (h - j2) 0) := by
    intro j2 hj2
    rw [decayStep_iterate_getElem, hget, Option.map_some',
      decay_fun_iterate j2 hj2 h]
  refine ⟨fun l => rfl, key j hj, ?_, max_le_max (by omega) le_rfl, ?_⟩
  · rw [List.getElem?_map, key j hj, Option.map_some']
    congr 1
    have hiff : (0 < max (h - (j : Int)) 0) ↔ ((j : Int) < h) := by
      rw [lt_max_iff]
      omega
    exact decide_eq_decide.mpr hiff
  · have h1 : 1 ≤ h.toNat := by omega
    rw [key h.toNat h1]
    have h2 : ((h.toNat : ℕ) : Int) = h := Int.toNat_of_nonneg (by omega)
    rw [h2]
    simp

/-- Witness for the amended C4 at key `'5'`, hold 17, sample 5. -/
theorem c4_hold_decay_witness :
    get_action freshButtons =
      (decayStep freshButtons,
        (decayStep freshButtons).map (fun x => decide (x > 0)))
    ∧ ((decayStep^[(5 : ℕ)])
        (button_pressed freshButtons '5' 17).1)[buttonIndex Button.attack]? =
        some (max ((17 : Int) - ((5 : ℕ) : Int)) 0)
    ∧ (((decayStep^[(5 : ℕ)]) (button_pressed freshButtons '5' 17).1).map
        (fun x => decide (x > 0)))[buttonIndex Button.attack]? =
        some (decide (((5 : ℕ) : Int) < (17 : Int)))
    ∧ max ((17 : Int) - (((5 : ℕ) : Int) + 1)) 0 ≤
        max ((17 : Int) - ((5 : ℕ) : Int)) 0
    ∧ ((decayStep^[(17 : Int).toNat])
        (button_pressed freshButtons '5' 17).1)[buttonIndex Button.attack]? =
        some 0 := by
  have h := c4_hold_decay freshButtons '5' Button.attack 17 5 rfl (by decide)
    (by decide) (by decide)
  exact ⟨h.1 freshButtons, h.2.1, h.2.2.1, h.2.2.2.1, h.2.2.2.2⟩

/-! ## Scheduler claims C3, C5, C6, C10 -/

/-- C3 evaluated at its failing input: with queue contents
`[GOT_CONNECTION, NEW_PLAYER "A"]` — exactly what `Asterisk.on_start`
produces for the first caller (lines 168, 184) — the prelude of
`Doom.start` consumes both events from the queue, yet only
`NEW_PLAYER "A"` reaches the dispatch: the line-256 `get` result is
overwritten by the line-260 `get`, so `GOT_CONNECTION` is dequeued but
never dispatched, contradicting "every pushed event is dequeued and
dispatched exactly once". -/
theorem c3_event_dropped :
    startupConsumed [QEvent.gotConnection, QEvent.newPlayer "A"] =
      [QEvent.gotConnection, QEvent.newPlayer "A"]
    ∧ startupFetch [QEvent.gotConnection, QEvent.newPlayer "A"] =
        some (QEvent.newPlayer "A", [])
    ∧ QEvent.gotConnection ≠ QEvent.newPlayer "A" :=
  ⟨rfl, rfl, by decide⟩

theorem runDeadlines_getElem (start fps : ℚ) (ws : List ℚ) :
    ∀ (f : ℕ) (now : ℚ) (n : ℕ), n < ws.length →
    (runDeadlines start fps f now ws)[n]? =
      some (tickDeadline start fps (f + 1 + n)) := by
  induction ws with
  | nil => intro f now n hn; simp at hn
  | cons w ws ih =>
    intro f now n hn
    cases n with
    | zero => simp [runDeadlines]
    | succ n =>
      rw [runDeadlines]
      rw [List.getElem?_cons_succ]
      rw [ih (f + 1) _ n (by simpa using hn)]
      congr 2
      omega

theorem runDeadlines_indep (start fps : ℚ) :
    ∀ (ws ws2 : List ℚ) (f : ℕ) (now now2 : ℚ), ws.length = ws2.length →
    runDeadlines start fps f now ws = runDeadlines start fps f now2 ws2 := by
  intro ws
  induction ws with
  | nil =>
    intro ws2 f now now2 hlen
    cases ws2 with
    | nil => rfl
    | cons w2 ws2 => simp at hlen
  | cons w ws ih =>
    intro ws2 f now now2 hlen
    cases ws2 with
    | nil => simp at hlen
    | cons w2 ws2 =>
      rw [runDeadlines, runDeadlines]
      rw [ih ws2 (f + 1) _ _ (by simpa using hlen)]

/-- C5. The deadline the streaming loop uses at tick `n` (0-based) is the
absolute instant `start + (n+1) * P` with `P = 1 / fps` (line 292 computes
`start + frames / DOOM_FPS`), for every list of per-tick work durations;
and the whole deadline sequence is identical for any two runs whose lengths
agree — an overrun of some tick by any amount shifts no later deadline, so
deadline slip never compounds. -/
theorem c5_absolute_deadlines (start fps : ℚ) (works works2 : List ℚ)
    (n : ℕ) (h1 : n < works.length) (h2 : works.length = works2.length) :
    (runDeadlines start fps 0 start works)[n]? =
      some (start + ((n : ℚ) + 1) * (1 / fps))
    ∧ runDeadlines start fps 0 start works =
        runDeadlines start fps 0 start works2 := by
  constructor
  · rw [runDeadlines_getElem start fps works 0 start n h1]
    congr 1
    rw [tickDeadline]
    push_cast
    ring
  · exact runDeadlines_indep start fps works works2 0 start start h2

/-- Witness for C5: two ticks, the first overrunning its whole frame
budget; the second deadline is still `start + 2 * P`. -/
theorem c5_absolute_deadlines_witness :
    (runDeadlines 0 35 0 0 [1, 0])[1]? =
      some (0 + (((1 : ℕ) : ℚ) + 1) * (1 / 35))
    ∧ runDeadlines 0 35 0 0 [1, 0] = runDeadlines 0 35 0 0 [0, 0] :=
  c5_absolute_deadlines 0 35 [1, 0] [0, 0] 1 (by decide) (by decide)

theorem idleRun_true (n : ℕ) :
    ∀ fuel : ℕ, n < fuel → idleRun fuel true (n : Int) = some n := by
  induction n with
  | zero =>
    intro fuel hf
    cases fuel with
    | zero => omega
    | succ fuel => simp [idleRun]
  | succ n ih =>
    intro fuel hf
    cases fuel with
    | zero => omega
    | succ fuel =>
      rw [idleRun]
      have hc : (¬true ∨ ((n : ℕ) + 1 : ℕ) > (0 : Int)) := by
        right
        push_cast
        omega
      rw [if_pos (by exact hc)]
      have harg : (if true = true then (((n : ℕ) + 1 : ℕ) : Int) - 1
          else (((n : ℕ) + 1 : ℕ) : Int)) = ((n : ℕ) : Int) := by
        rw [if_pos rfl]
        push_cast
        ring
      rw [harg, ih fuel (by omega)]
      rfl

/-- C6 refuted at its concrete instance: starting idle with the full grace
window `DOOM_FPS * 15 = 525` and no caller events, the streaming loop of
lines 276-312 publishes exactly 525 more frames and then its condition
(line 276) fails, so the loop terminates and the `with self.twitch` block
closes the publish stream (`Twitch.__exit__`, lines 121-123) — the `true`
component. The claim that frames keep being published and the stream is
never closed by the idle transition is therefore false: no frame is
published after the transition until a new event restarts a stream. -/
theorem c6_counterexample :
    withTwitch 1000 true (DOOM_FPS * 15) = some (525, true) := by
  have h0 : DOOM_FPS * 15 = ((525 : ℕ) : Int) := by decide
  rw [withTwitch, h0, idleRun_true 525 1000 (by omega)]
  rfl

/-- C6 as amended. With the idle flag set, a remaining grace window of `n`
ticks and no arriving events, the streaming loop publishes exactly `n`
more frames (one per tick, paced by the line-292 deadlines) and then
exits, whereupon the `with` block closes the publish stream; publishing
stops until the outer loop receives new events, although the outer loop
itself keeps the simulation advancing (line 255). -/
theorem c6_idle_transition (n fuel : ℕ) (hf : n < fuel) :
    withTwitch fuel true (n : Int) = some (n, true) := by
  rw [withTwitch, idleRun_true n fuel hf]
  rfl

/-- Witness for the amended C6 at a three-tick grace window. -/
theorem c6_idle_transition_witness :
    withTwitch 5 true ((3 : ℕ) : Int) = some (3, true) :=
  c6_idle_transition 3 5 (by omega)

/-- C10. In the per-frame dispatch of the streaming loop, a `NEW_PLAYER`
event (lines 297-301) and a `NO_PLAYER` event (lines 302-307) each start a
fresh simulation episode (`new_episode`) and replace the button state with
a fresh `ButtonManager()` whose counters are all zero — so neither game
progress nor held-button state survives a session boundary in either
direction. -/
theorem c10_session_boundary_reset (s : TickState) (c : String) :
    (dispatchTick s (QEvent.newPlayer c)).buttons = freshButtons
    ∧ (dispatchTick s (QEvent.newPlayer c)).episodes = s.episodes + 1
    ∧ (dispatchTick s (QEvent.newPlayer c)).idle = false
    ∧ (dispatchTick s QEvent.noPlayer).buttons = freshButtons
    ∧ (dispatchTick s QEvent.noPlayer).episodes = s.episodes + 1
    ∧ (dispatchTick s QEvent.noPlayer).idle = true
    ∧ ∀ x ∈ freshButtons, x = 0 := by
  refine ⟨rfl, rfl, rfl, rfl, rfl, rfl, ?_⟩
  decide
